import Mathlib

/-
Verification of the device-identity resolution and candidate-program
selection/lifecycle engine of udev-hid-bpf, shallowly embedded from
src/src/hidudev.rs and src/src/main.rs.

Strings from the Rust sources are modelled at the character level
(`List Char`); all inputs of interest are ASCII, where Rust's byte
indexing and Lean's character indexing coincide.  Rust panics
(`unwrap`) are modelled as the error/none branch of `Except`/`Option`.
External collaborators (udev database, the BPF loader, the bpffs pin
store) are modelled as explicit parameters, exactly at the interface
the Rust code consumes them.
-/

namespace UdevHidBpf

/-! ### ASCII character primitives -/

/-- ASCII upper-casing, as performed by the case-insensitive matching of
the `globset` crate (built with `case_insensitive(true)`) on ASCII data. -/
def upChar (c : Char) : Char :=
  if 97 ≤ c.toNat ∧ c.toNat ≤ 122 then Char.ofNat (c.toNat - 32) else c

/-- The characters accepted by Rust's `char::to_digit(16)`:
`0-9`, `a-f`, `A-F`. -/
def isHexDigit (c : Char) : Bool :=
  (48 ≤ c.toNat && c.toNat ≤ 57) ||
  (97 ≤ c.toNat && c.toNat ≤ 102) ||
  (65 ≤ c.toNat && c.toNat ≤ 70)

/-- Numeric value of a hex digit (as computed by `char::to_digit(16)`). -/
def hexVal (c : Char) : Nat :=
  if c.toNat ≤ 57 then c.toNat - 48
  else if c.toNat ≤ 70 then c.toNat - 55
  else c.toNat - 87

/-- Value of a string of hex digits, most significant first. -/
def hexDigitsVal (l : List Char) : Nat :=
  l.foldl (fun a c => 16 * a + hexVal c) 0

/-! ### Rust `u32::from_str_radix(s, 16)`

For an unsigned integer type Rust accepts an optional single leading `+`
(a leading `-` is only recognised for signed types and hence is rejected
here as an invalid digit), then a non-empty run of hex digits, and fails
on overflow past `u32::MAX`.  `none` models every `Err` outcome. -/

def fromStrRadix16U32 (l : List Char) : Option Nat :=
  let ds := if l.head? = some '+' then l.tail else l
  if ds.isEmpty then none
  else if ds.all isHexDigit then
    let v := hexDigitsVal ds
    if v < 2 ^ 32 then some v else none
  else none

/-- Declarative characterisation of a string accepted by Rust's
`u32::from_str_radix(_, 16)` with value `v`: either a plain non-empty
hex-digit string, or one preceded by a single `+` sign. -/
def rustHexSpec (l : List Char) (v : Nat) : Prop :=
  (l ≠ [] ∧ (∀ c ∈ l, isHexDigit c = true) ∧ v = hexDigitsVal l ∧ v < 2 ^ 32)
  ∨ (∃ t, l = '+' :: t ∧ t ≠ [] ∧ (∀ c ∈ t, isHexDigit c = true) ∧
      v = hexDigitsVal t ∧ v < 2 ^ 32)

/-! ### Error model

The Rust code reports failures through `std::io::Error`.  The claims only
ever discriminate on (a) whether the error was built with
`ErrorKind::InvalidData` (the spec's `MalformedIdentity` /
`NotATargetDevice`), or (b) its `raw_os_error()` code (the spec's
`NoSuchDevice` via `ENODEV` and `InvalidInput` via `EINVAL`).  The
`invalidData` payload records the context string the Rust code formats
into the message. -/

inductive RsError where
  | invalidData (context : List Char)
  | rawOs (code : Int)
deriving DecidableEq, Repr

instance {ε α : Type} [DecidableEq ε] [DecidableEq α] : DecidableEq (Except ε α) :=
  fun x y =>
    match x, y with
    | .ok a, .ok b =>
      if h : a = b then isTrue (by rw [h])
      else isFalse (by intro hh; cases hh; exact h rfl)
    | .ok _, .error _ => isFalse (by intro h; cases h)
    | .error _, .ok _ => isFalse (by intro h; cases h)
    | .error a, .error b =>
      if h : a = b then isTrue (by rw [h])
      else isFalse (by intro hh; cases hh; exact h rfl)

/-- Model of `std::io::Error::raw_os_error()`: only errors created from a
raw OS error code report one. -/
def raw_os_error : RsError → Option Int
  | .rawOs c => some c
  | _ => none

/-! ### The identity codec (`Modalias`, src/src/hidudev.rs lines 11-68) -/

structure Modalias where
  bus : Nat
  group : Nat
  vid : Nat
  pid : Nat
deriving DecidableEq, Repr

/-- Model of `modalias.trim_start_matches("hid:")`: Rust's
`trim_start_matches` removes every successive leading occurrence of the
pattern, not just the first one. -/
def trimHid : List Char → List Char
  | 'h' :: 'i' :: 'd' :: ':' :: rest => trimHid rest
  | l => l

/-- Model of `Modalias::from_str` (src/src/hidudev.rs lines 19-48): strip
leading `hid:` occurrences, require exactly 28 characters, then parse the
byte ranges `[1,5)`, `[6,10)`, `[11,19)`, `[20,28)` with
`u32::from_str_radix(_, 16)`.  Both failure branches build the same
`ErrorKind::InvalidData` error carrying the stripped string. -/
def fromStr (s : String) : Except RsError Modalias :=
  let md := trimHid s.data
  if md.length ≠ 28 then .error (.invalidData md)
  else
    match fromStrRadix16U32 ((md.drop 1).take 4),
          fromStrRadix16U32 ((md.drop 6).take 4),
          fromStrRadix16U32 ((md.drop 11).take 8),
          fromStrRadix16U32 ((md.drop 20).take 8) with
    | some bus, some group, some vid, some pid => .ok ⟨bus, group, vid, pid⟩
    | _, _, _, _ => .error (.invalidData md)

/-- Model of `Modalias::from_udev_device` (src/src/hidudev.rs lines
54-68) on the modelled udev interface: the device's `MODALIAS` property
is an `Option`; when absent, the literal string `hid:empty` is handed to
`Modalias::from_str` instead of failing. -/
def from_udev_device (modaliasProp : Option String) : Except RsError Modalias :=
  match modaliasProp with
  | some data => fromStr data
  | none => fromStr "hid:empty"

/-! ### Fallback logical-name extraction (src/src/main.rs lines 88-98)

`sysname_from_syspath` resolves a symbolic link, takes the final path
segment, and keeps it when the regex
`[A-Z0-9]{4}:[A-Z0-9]{4}:[A-Z0-9]{4}\.[A-Z0-9]{4}` finds a match in it
(`re.captures(d).is_some()` is an unanchored search).  The filesystem
part is abstracted: the model takes the final segment of the resolved
path (`none` when `file_name()` or UTF-8 conversion yields nothing). -/

/-- The regex character class `[A-Z0-9]`: uppercase letters or digits. -/
def upAln (c : Char) : Bool :=
  (65 ≤ c.toNat && c.toNat ≤ 90) || (48 ≤ c.toNat && c.toNat ≤ 57)

/-- The regex matches at the head of the list: four `[A-Z0-9]`, `:`,
four, `:`, four, `.`, four, then anything. -/
def startsWithLayout : List Char → Bool
  | a1 :: a2 :: a3 :: a4 :: ':' :: b1 :: b2 :: b3 :: b4 :: ':' ::
      c1 :: c2 :: c3 :: c4 :: '.' :: d1 :: d2 :: d3 :: d4 :: _ =>
    [a1, a2, a3, a4, b1, b2, b3, b4, c1, c2, c3, c4, d1, d2, d3, d4].all upAln
  | _ => false

/-- The regex finds a match somewhere in the list (unanchored search,
as `Regex::captures` performs). -/
def containsLayout : List Char → Bool
  | [] => false
  | l@(_ :: t) => startsWithLayout l || containsLayout t

/-- Model of `sysname_from_syspath`: accept the final segment iff the
search succeeds, otherwise fail with `EINVAL` (raw OS error 22). -/
def sysname_from_syspath (finalSeg : Option String) : Except RsError String :=
  match finalSeg with
  | some d => if containsLayout d.data then .ok d else .error (.rawOs 22)
  | none => .error (.rawOs 22)

/-- Declarative form of a match at the head: sixteen `[A-Z0-9]`
characters in the four-group layout, followed by an arbitrary tail. -/
def layoutAtSpec (l : List Char) : Prop :=
  ∃ (a1 a2 a3 a4 b1 b2 b3 b4 c1 c2 c3 c4 d1 d2 d3 d4 : Char) (tail : List Char),
    l = a1 :: a2 :: a3 :: a4 :: ':' :: b1 :: b2 :: b3 :: b4 :: ':' ::
        c1 :: c2 :: c3 :: c4 :: '.' :: d1 :: d2 :: d3 :: d4 :: tail ∧
    [a1, a2, a3, a4, b1, b2, b3, b4, c1, c2, c3, c4, d1, d2, d3, d4].all upAln = true

/-- Declarative form of the unanchored search: some suffix of the list
matches at its head. -/
def containsLayoutSpec (l : List Char) : Prop :=
  ∃ pre rest, l = pre ++ rest ∧ layoutAtSpec rest

/-- The claim's predicate: the entire segment is exactly the four-group
layout `XXXX:XXXX:XXXX.XXXX` over hexadecimal characters. -/
def exactHexLayout (l : List Char) : Bool :=
  match l with
  | [a1, a2, a3, a4, ':', b1, b2, b3, b4, ':', c1, c2, c3, c4, '.', d1, d2, d3, d4] =>
    [a1, a2, a3, a4, b1, b2, b3, b4, c1, c2, c3, c4, d1, d2, d3, d4].all isHexDigit
  | _ => false

/-! ### Removal flow (src/src/main.rs lines 100-109)

`cmd_remove` resolves the device; on `Err(e)` with
`e.raw_os_error() == Some(ENODEV)` it falls back to
`sysname_from_syspath`, on any other error it returns `e` unchanged;
the recovered name is handed to the pin-store purge.  The resolution
outcome and the purge collaborator are parameters. -/

def ENODEV : Int := 19

def cmd_remove (resolveResult : Except RsError String) (finalSeg : Option String)
    (purge : String → Except RsError Unit) : Except RsError Unit :=
  match resolveResult with
  | .ok sysname => purge sysname
  | .error e =>
    if raw_os_error e = some ENODEV then
      match sysname_from_syspath finalSeg with
      | .ok n => purge n
      | .error e2 => .error e2
    else .error e

/-! ### `HidUdev::id` (src/src/hidudev.rs lines 114-117)

`u32::from_str_radix(&hid_sys[15..], 16).unwrap()`: the characters from
byte offset 15 on are parsed as hex; the `unwrap` panic on a parse
failure is modelled as `none`. -/

def hidudev_id (sysname : String) : Option Nat :=
  fromStrRadix16U32 (sysname.data.drop 15)

/-! ### `HidUdev::remove_bpf_objects` (src/src/hidudev.rs lines 163-171)

The pin-store subtree for the device is removed with
`std::fs::remove_dir_all(path).ok();` — `.ok()` converts the `Result`
into an `Option` and discards it — and the function then returns
`Ok(())` unconditionally.  The deletion collaborator (path derivation
via `bpf::get_bpffs_path` composed with `remove_dir_all`, addressed by
the logical name) is a parameter. -/

def remove_bpf_objects (purge : String → Except RsError Unit)
    (sysname : String) : Except RsError Unit :=
  match purge sysname with
  | .ok _ => .ok ()
  | .error _ => .ok ()

/-! ### Device resolution (src/src/hidudev.rs lines 72-100)

`HidUdev::from_syspath` opens the udev entry, uses it directly when its
`SUBSYSTEM` property equals `hid`, otherwise takes the first ancestor
with subsystem `hid` (`parent_with_subsystem`), and fails with the
`InvalidData` "not a HID device" error when there is none.  A device
record is modelled by its relevant attributes plus its ancestor chain,
nearest ancestor first. -/

structure DevNode where
  subsystem : Option String
  sysname : String
deriving DecidableEq, Repr

structure UdevDevice where
  node : DevNode
  ancestors : List DevNode
deriving DecidableEq, Repr

def subsystemIsHid (n : DevNode) : Bool := n.subsystem = some "hid"

def from_syspath (syspath : String) (dev : UdevDevice) : Except RsError DevNode :=
  if subsystemIsHid dev.node then .ok dev.node
  else
    match dev.ancestors.find? subsystemIsHid with
    | some parent => .ok parent
    | none =>
      .error (.invalidData ("Device " ++ syspath ++ " is not a HID device").data)

/-! ### Candidate matching (src/src/hidudev.rs lines 119-161)

`load_bpf_from_directory` builds the glob
`b{BBBB,\*}g{GGGG,\*}v{VVVVVVVV,\*}p{PPPPPPPP,\*}*.bpf.o`
(field values formatted `{:04X}`/`{:08X}`), joined under `bpf_dir`, with
`literal_separator(true)` and `case_insensitive(true)`, and keeps the
directory entries whose path matches it and which are regular files.
The model works at the filename level: the `bpf_dir` prefix of the glob
is all literal characters and matches exactly the identical prefix that
`read_dir` puts on every entry's path.  `{a,b}` is alternation, `\*` is
a literal `*` character (backslash escapes are enabled on Unix), `*`
matches any run of non-separator characters, and literals compare
case-insensitively. -/

/-- Uppercase hex digit of a value below 16, as `{:X}` formats it. -/
def hexDigitUpper (n : Nat) : Char :=
  if n < 10 then Char.ofNat (48 + n) else Char.ofNat (55 + n)

/-- The `w` low hex digits of `n`, most significant first: for
`n < 16 ^ w` this is exactly Rust's `{:0wX}` fixed-width formatting. -/
def hexFixed (w n : Nat) : List Char :=
  (List.range w).map (fun i => hexDigitUpper (n / 16 ^ (w - 1 - i) % 16))

/-- Strip a literal glob pattern case-insensitively from the head of a
string, returning the remainder on success. -/
def stripCI : List Char → List Char → Option (List Char)
  | [], s => some s
  | _ :: _, [] => none
  | p :: ps, c :: cs => if upChar c = upChar p then stripCI ps cs else none

/-- The glob tail `*.bpf.o` under `literal_separator(true)`: the rest
ends (case-insensitively) in `.bpf.o` and the part consumed by `*`
contains no separator. -/
def endsCI (rest : List Char) : Bool :=
  decide (6 ≤ rest.length) &&
  decide ((rest.drop (rest.length - 6)).map upChar = ['.', 'B', 'P', 'F', '.', 'O']) &&
  decide ('/' ∉ rest.take (rest.length - 6))

/-- The two alternatives of a brace group `{exact,\*}`. -/
def fieldPats (exact : List Char) : List (List Char) := [exact, ['*']]

/-- Model of the compiled glob applied to a candidate filename. -/
def matchesGlob (m : Modalias) (name : List Char) : Bool :=
  (fieldPats (hexFixed 4 m.bus)).any fun f1 =>
  (fieldPats (hexFixed 4 m.group)).any fun f2 =>
  (fieldPats (hexFixed 8 m.vid)).any fun f3 =>
  (fieldPats (hexFixed 8 m.pid)).any fun f4 =>
    match stripCI ('b' :: f1 ++ 'g' :: f2 ++ 'v' :: f3 ++ 'p' :: f4) name with
    | some rest => endsCI rest
    | none => false

/-- A directory entry as the matching loop consumes it: its filename and
whether `path.is_file()` holds. -/
structure DirEntry where
  name : List Char
  isFile : Bool
deriving DecidableEq, Repr

/-- The `matches` vector built by the loop over `read_dir`. -/
def selectMatches (m : Modalias) (entries : List DirEntry) : List DirEntry :=
  entries.filter (fun e => matchesGlob m e.name && e.isFile)

/-! ### The load loop and the add flow (src/src/hidudev.rs lines 119-161)

If the directory does not exist the function returns `Ok(())` at once.
Otherwise every selected candidate is handed, in order, to
`HidBPF::load_programs`; the `.unwrap()` on a load failure aborts the
invocation carrying that failure, modelled as an early `Except.error`.
The result records which candidates were handed to the loader and the
final outcome. -/

def load_trace {E : Type} (loader : List Char → Except E Unit) :
    List (List Char) → List (List Char) × Except E Unit
  | [] => ([], .ok ())
  | p :: rest =>
    match loader p with
    | .ok _ =>
      let r := load_trace loader rest
      (p :: r.1, r.2)
    | .error e => ([p], .error e)

def load_bpf_from_directory {E : Type} (loader : List Char → Except E Unit)
    (dirExists : Bool) (entries : List DirEntry) (m : Modalias) :
    List (List Char) × Except E Unit :=
  if dirExists = false then ([], .ok ())
  else load_trace loader ((selectMatches m entries).map DirEntry.name)

/-! ### Claim C1: characterisation of the matcher -/

/-- The claim's per-field alternation predicate on a candidate filename,
read case-insensitively (via upper-casing): the name decomposes into the
`b`/`g`/`v`/`p` markers, four fields that are each the device's exact
fixed-width hexadecimal value or the literal wildcard `*`, an arbitrary
remainder, and the program-file suffix `.bpf.o`. -/
def specFileMatches (m : Modalias) (name : List Char) : Prop :=
  ∃ f1 f2 f3 f4 mid suf,
    name.map upChar =
      'B' :: f1 ++ 'G' :: f2 ++ 'V' :: f3 ++ 'P' :: f4 ++ mid ++ suf ∧
    (f1 = ['*'] ∨ f1 = hexFixed 4 m.bus) ∧
    (f2 = ['*'] ∨ f2 = hexFixed 4 m.group) ∧
    (f3 = ['*'] ∨ f3 = hexFixed 8 m.vid) ∧
    (f4 = ['*'] ∨ f4 = hexFixed 8 m.pid) ∧
    suf = ['.', 'B', 'P', 'F', '.', 'O']

/-! ### Theorems -/

theorem isHexDigit_plus : isHexDigit '+' = false := by decide

theorem fromStrRadix16U32_eq_some (l : List Char) (v : Nat) :
    fromStrRadix16U32 l = some v ↔ rustHexSpec l v := by
  unfold fromStrRadix16U32 rustHexSpec
  by_cases hp : l.head? = some '+'
  · obtain ⟨t, rfl⟩ : ∃ t, l = '+' :: t := by
      cases l with
      | nil => simp at hp
      | cons c rest =>
        exact ⟨rest, by simp only [List.head?_cons, Option.some.injEq] at hp; rw [hp]⟩
    simp only [hp, if_true, List.tail_cons]
    constructor
    · intro h
      split at h
      · exact absurd h (by simp)
      · split at h
        · rename_i hne hall
          split at h
          · rename_i hlt
            refine Or.inr ⟨t, rfl, by simpa using hne, ?_, by simpa using h.symm, ?_⟩
            · simpa [List.all_eq_true] using hall
            · have hv : hexDigitsVal t = v := by simpa using h
              omega
          · exact absurd h (by simp)
        · exact absurd h (by simp)
    · rintro (⟨hne, hall, hval, hlt⟩ | ⟨t', ht, htne, hall, hval, hlt⟩)
      · exact absurd (hall '+' (by simp)) (by decide)
      · obtain rfl : t = t' := by simpa using ht
        have hall' : t.all isHexDigit = true := by
          simpa [List.all_eq_true] using hall
        subst hval
        simp [htne, hall']
        omega
  · simp only [hp, if_false]
    constructor
    · intro h
      split at h
      · exact absurd h (by simp)
      · split at h
        · rename_i hne hall
          split at h
          · rename_i hlt
            refine Or.inl ⟨by simpa using hne, ?_, by simpa using h.symm, ?_⟩
            · simpa [List.all_eq_true] using hall
            · have hv : hexDigitsVal l = v := by simpa using h
              omega
          · exact absurd h (by simp)
        · exact absurd h (by simp)
    · rintro (⟨hne, hall, hval, hlt⟩ | ⟨t, rfl, _⟩)
      · have hall' : l.all isHexDigit = true := by
          simpa [List.all_eq_true] using hall
        have hne' : l.isEmpty = false := by
          simpa [List.isEmpty_iff] using hne
        subst hval
        simp [hne', hall']
        omega
      · exact absurd (by simp) hp

example : fromStr "b0003g0001v000004D9p0000A09F" = .ok ⟨3, 1, 1241, 41119⟩ := by decide
example : fromStr "hid:b0003g0001v000004d9p0000a09f" = .ok ⟨3, 1, 1241, 41119⟩ := by decide
example : fromStr "b0003g0001v04D9p0000A09F" = .error (.invalidData "b0003g0001v04D9p0000A09F".data) := by decide
example : fromStr "b0003g0001v0000g4D9p0000A09F" = .error (.invalidData "b0003g0001v0000g4D9p0000A09F".data) := by decide

/-- C2 (counterexample): the claim as stated is false.  On the input
`hid:hid:b+003g0001v000004D9p0000A09F`, stripping the literal prefix
once leaves a 32-character remainder, and even on the fully stripped
remainder the character range `[1,5)` is `+003`, which is not valid
hexadecimal; by the claim `parse` must fail with `MalformedIdentity` in
both readings.  The code nevertheless succeeds, because
`trim_start_matches` strips the prefix repeatedly and
`u32::from_str_radix` accepts an optional leading `+` sign. -/
theorem c2_parse_counterexample :
    fromStr "hid:hid:b+003g0001v000004D9p0000A09F" = .ok ⟨3, 1, 1241, 41119⟩ ∧
    ("hid:hid:b+003g0001v000004D9p0000A09F".data.drop 4).length = 32 ∧
    trimHid "hid:hid:b+003g0001v000004D9p0000A09F".data =
      "b+003g0001v000004D9p0000A09F".data ∧
    ((trimHid "hid:hid:b+003g0001v000004D9p0000A09F".data).drop 1).take 4 =
      ['+', '0', '0', '3'] ∧
    isHexDigit '+' = false := by
  decide

/-- C2 (amended): after removing every leading occurrence of the literal
prefix `hid:`, `parse` succeeds exactly when the remainder is 28
characters long and the character ranges `[1,5)`, `[6,10)`, `[11,19)`,
`[20,28)` are each accepted by Rust's base-16 `u32` parser (a non-empty
run of case-insensitive hex digits, optionally preceded by a single `+`
sign); on success the fields `bus`, `group`, `vendorId`, `productId`
equal those ranges' values, and every failure is the `MalformedIdentity`
error carrying the stripped string. -/
theorem c2_parse_characterisation (s : String) (m : Modalias) :
    (fromStr s = .ok m ↔
      (trimHid s.data).length = 28 ∧
      rustHexSpec (((trimHid s.data).drop 1).take 4) m.bus ∧
      rustHexSpec (((trimHid s.data).drop 6).take 4) m.group ∧
      rustHexSpec (((trimHid s.data).drop 11).take 8) m.vid ∧
      rustHexSpec (((trimHid s.data).drop 20).take 8) m.pid) ∧
    (∀ e, fromStr s = .error e → e = .invalidData (trimHid s.data)) := by
  obtain ⟨mb, mg, mv, mp⟩ := m
  unfold fromStr
  simp only [← fromStrRadix16U32_eq_some]
  by_cases hlen : (trimHid s.data).length = 28
  · simp only [hlen, ne_eq, not_true_eq_false, if_false]
    rcases h1 : fromStrRadix16U32 (((trimHid s.data).drop 1).take 4) with _ | bus <;>
      rcases h2 : fromStrRadix16U32 (((trimHid s.data).drop 6).take 4) with _ | group <;>
        rcases h3 : fromStrRadix16U32 (((trimHid s.data).drop 11).take 8) with _ | vid <;>
          rcases h4 : fromStrRadix16U32 (((trimHid s.data).drop 20).take 8) with _ | pid <;>
            simp [h1, h2, h3, h4, Modalias.mk.injEq, eq_comm, and_comm, and_assoc]
  · simp [hlen]

/-- C2 (witness): the amended characterisation applied to the concrete
failing input `bad`, discharging its hypothesis. -/
theorem c2_parse_characterisation_witness :
    RsError.invalidData "bad".data = .invalidData (trimHid "bad".data) :=
  (c2_parse_characterisation "bad" ⟨0, 0, 0, 0⟩).2 (.invalidData "bad".data) (by decide)

/-- C7: when the `MODALIAS` property is absent, the resolver layer does
not fail: the synthesized string `hid:empty` is handed to the codec, and
the resulting outcome is exactly the codec's own `MalformedIdentity`
verdict on that string (here a rejection, since after stripping the
prefix only `empty` remains). -/
theorem c7_missing_modalias_synthesized :
    from_udev_device none = fromStr "hid:empty" ∧
    fromStr "hid:empty" = .error (.invalidData "empty".data) ∧
    (∀ p : String, from_udev_device (some p) = fromStr p) :=
  ⟨rfl, by decide, fun _ => rfl⟩

example : sysname_from_syspath (some "0003:04F3:2D4A.0001") = .ok "0003:04F3:2D4A.0001" := by decide
example : sysname_from_syspath (some "1234") = .error (.rawOs 22) := by decide
example : sysname_from_syspath (some "0003:04F3:2D4A-0001") = .error (.rawOs 22) := by decide

theorem startsWithLayout_iff (l : List Char) :
    startsWithLayout l = true ↔ layoutAtSpec l := by
  constructor
  · intro h
    unfold startsWithLayout at h
    split at h
    · rename_i a1 a2 a3 a4 b1 b2 b3 b4 c1 c2 c3 c4 d1 d2 d3 d4 tail
      exact ⟨a1, a2, a3, a4, b1, b2, b3, b4, c1, c2, c3, c4, d1, d2, d3, d4, tail, rfl, h⟩
    · exact absurd h (by simp)
  · rintro ⟨a1, a2, a3, a4, b1, b2, b3, b4, c1, c2, c3, c4, d1, d2, d3, d4, tail, rfl, hall⟩
    simpa [startsWithLayout] using hall

theorem containsLayout_iff (l : List Char) :
    containsLayout l = true ↔ containsLayoutSpec l := by
  induction l with
  | nil =>
    simp only [containsLayout, Bool.false_eq_true, false_iff]
    rintro ⟨pre, rest, hpr, a1, a2, a3, a4, b1, b2, b3, b4, c1, c2, c3, c4,
      d1, d2, d3, d4, tail, hrest, _⟩
    subst hrest
    exact absurd hpr.symm (by simp)
  | cons c t ih =>
    simp only [containsLayout, Bool.or_eq_true, ih, startsWithLayout_iff]
    constructor
    · rintro (hhead | ⟨pre, rest, rfl, hrest⟩)
      · exact ⟨[], c :: t, rfl, hhead⟩
      · exact ⟨c :: pre, rest, rfl, hrest⟩
    · rintro ⟨pre, rest, hpr, hrest⟩
      cases pre with
      | nil =>
        simp only [List.nil_append] at hpr
        exact Or.inl (hpr ▸ hrest)
      | cons c' pre' =>
        simp only [List.cons_append, List.cons.injEq] at hpr
        exact Or.inr ⟨pre', rest, hpr.2, hrest⟩

/-- C3 (counterexample): the claim as stated is false.  The segment
`x0003:04F3:2D4A.0001` is not entirely the fixed four-group layout (it
has a leading extra character), so by the claim the extraction must fail
with `InvalidInput`; but the code's `re.captures` performs an unanchored
substring search and accepts the segment, returning it whole. -/
theorem c3_sysname_counterexample :
    sysname_from_syspath (some "x0003:04F3:2D4A.0001") = .ok "x0003:04F3:2D4A.0001" ∧
    exactHexLayout "x0003:04F3:2D4A.0001".data = false := by
  decide

/-- C3 (amended): fallback extraction accepts the resolved final path
segment if and only if the segment contains (anywhere, not anchored) a
substring of the form four `[A-Z0-9]` characters, colon, four, colon,
four, dot, four — uppercase letters and digits, not only hex digits —
and in that case returns the entire segment; otherwise, and when there
is no final segment, it fails with `InvalidInput` (`EINVAL`). -/
theorem c3_sysname_amended (seg : String) :
    (sysname_from_syspath (some seg) = .ok seg ↔ containsLayoutSpec seg.data) ∧
    (sysname_from_syspath (some seg) = .ok seg ∨
      sysname_from_syspath (some seg) = .error (.rawOs 22)) ∧
    sysname_from_syspath none = .error (.rawOs 22) := by
  unfold sysname_from_syspath
  by_cases h : containsLayout seg.data = true
  · have hs := (containsLayout_iff seg.data).mp h
    simp [h, hs]
  · have hs : ¬ containsLayoutSpec seg.data :=
      fun hc => h ((containsLayout_iff seg.data).mpr hc)
    have hf : containsLayout seg.data = false := by simpa using h
    simp [hf, hs]

/-- C5: in the remove flow, a resolution failure whose raw OS error is
`ENODEV` (device no longer exists) is recovered by fallback extraction
from the raw path and the flow proceeds to purge under the recovered
name (propagating the fallback's own failure); every other resolution
failure is propagated unchanged. -/
theorem c5_remove_fallback (finalSeg : Option String)
    (purge : String → Except RsError Unit) :
    (∀ sysname, cmd_remove (.ok sysname) finalSeg purge = purge sysname) ∧
    (∀ n, sysname_from_syspath finalSeg = .ok n →
      cmd_remove (.error (.rawOs ENODEV)) finalSeg purge = purge n) ∧
    (∀ e2, sysname_from_syspath finalSeg = .error e2 →
      cmd_remove (.error (.rawOs ENODEV)) finalSeg purge = .error e2) ∧
    (∀ e, raw_os_error e ≠ some ENODEV →
      cmd_remove (.error e) finalSeg purge = .error e) := by
  refine ⟨fun _ => rfl, fun n hn => ?_, fun e2 he2 => ?_, fun e he => ?_⟩
  · simp [cmd_remove, raw_os_error, hn]
  · simp [cmd_remove, raw_os_error, he2]
  · simp [cmd_remove, he]

/-- C5 (witness): the remove flow at concrete inputs — an `ENODEV`
failure recovers through the fallback name, a non-`ENODEV` failure is
returned unchanged. -/
theorem c5_remove_fallback_witness :
    cmd_remove (.error (.rawOs ENODEV)) (some "0003:04F3:2D4A.0001")
      (fun _ => .ok ()) = .ok () ∧
    cmd_remove (.error (.invalidData [])) (some "0003:04F3:2D4A.0001")
      (fun _ => .ok ()) = .error (.invalidData []) :=
  ⟨(c5_remove_fallback (some "0003:04F3:2D4A.0001") (fun _ => .ok ())).2.1
      "0003:04F3:2D4A.0001" (by decide),
   (c5_remove_fallback (some "0003:04F3:2D4A.0001") (fun _ => .ok ())).2.2.2
      (.invalidData []) (by decide)⟩

/-- C8 (counterexample): the claim as stated is false.  For the sysname
`0003:04F3:2D4A.+001` the trailing segment `+001` is not valid
hexadecimal, so by the claim `numericId` must fail; but Rust's
`from_str_radix` accepts an optional leading `+` sign and the code
returns 1. -/
theorem c8_id_counterexample :
    hidudev_id "0003:04F3:2D4A.+001" = some 1 ∧
    "0003:04F3:2D4A.+001".data.drop 15 = ['+', '0', '0', '1'] ∧
    isHexDigit '+' = false := by
  decide

/-- C8 (amended): on a sysname of the fixed layout (fourteen characters,
a dot, then the trailing segment), `numericId` parses exactly the
trailing segment, succeeding with its value precisely when Rust's
base-16 `u32` parser accepts it (case-insensitive hex digits optionally
preceded by a single `+` sign), and failing (the modelled
`MalformedSysname` outcome) otherwise. -/
theorem c8_id_amended (pre seg : List Char) (h : pre.length = 14) :
    hidudev_id (String.mk (pre ++ '.' :: seg)) = fromStrRadix16U32 seg ∧
    (∀ v, fromStrRadix16U32 seg = some v ↔ rustHexSpec seg v) ∧
    (fromStrRadix16U32 seg = none ↔ ¬ ∃ v, rustHexSpec seg v) := by
  refine ⟨?_, fun v => fromStrRadix16U32_eq_some seg v, ?_⟩
  · show fromStrRadix16U32 ((pre ++ '.' :: seg).drop 15) = fromStrRadix16U32 seg
    have h15 : 15 = pre.length + 1 := by omega
    rw [h15, List.drop_append, List.drop_one, List.tail_cons]
  · rcases hr : fromStrRadix16U32 seg with _ | v
    · simp only [true_iff]
      rintro ⟨v, hv⟩
      rw [← fromStrRadix16U32_eq_some] at hv
      rw [hr] at hv
      exact absurd hv (by simp)
    · simp only [reduceCtorEq, false_iff, not_not]
      exact ⟨v, (fromStrRadix16U32_eq_some seg v).mp hr⟩

/-- C8 (witness): the amended statement at the concrete sysname
`0003:04F3:2D4A.0001`, discharging its layout hypothesis. -/
theorem c8_id_amended_witness :
    hidudev_id (String.mk ("0003:04F3:2D4A".data ++ '.' :: "0001".data)) =
      fromStrRadix16U32 "0001".data :=
  (c8_id_amended "0003:04F3:2D4A".data "0001".data (by decide)).1

/-- C10 (counterexample): the claim as stated is false.  When the purge
collaborator fails with a permission error (`EACCES`, raw OS error 13)
— not an absence error — the claim requires that failure to surface as
the flow's error, but the code's `.ok()` discards it and the flow
succeeds. -/
theorem c10_purge_counterexample :
    remove_bpf_objects (fun _ => .error (.rawOs 13)) "0003:04F3:2D4A.0001" = .ok () ∧
    (Except.ok () : Except RsError Unit) ≠ .error (.rawOs 13) := by
  decide

/-- C10 (amended): purge requests deletion of the persisted subtree for
the logical name, and every purge failure — absence of the subtree and
any other error alike — is discarded: removal always reports success
(idempotent). -/
theorem c10_purge_amended (purge : String → Except RsError Unit) (sysname : String) :
    remove_bpf_objects purge sysname = .ok () := by
  unfold remove_bpf_objects
  cases purge sysname <;> rfl

theorem subsystemIsHid_iff (n : DevNode) :
    subsystemIsHid n = true ↔ n.subsystem = some "hid" :=
  decide_eq_true_iff

theorem subsystemIsHid_false_iff (n : DevNode) :
    subsystemIsHid n = false ↔ n.subsystem ≠ some "hid" := by
  simp [subsystemIsHid]

theorem find?_first {α : Type} (p : α → Bool) (l : List α) (x : α) :
    l.find? p = some x ↔
      ∃ l1 l2, l = l1 ++ x :: l2 ∧ p x = true ∧ ∀ b ∈ l1, p b = false := by
  induction l with
  | nil =>
    simp only [List.find?_nil, reduceCtorEq, false_iff]
    rintro ⟨l1, l2, h, -, -⟩
    exact absurd h.symm (by simp)
  | cons a t ih =>
    by_cases hpa : p a = true
    · rw [List.find?_cons_of_pos _ hpa]
      constructor
      · intro h
        obtain rfl : a = x := by simpa using h
        exact ⟨[], t, rfl, hpa, by simp⟩
      · rintro ⟨l1, l2, heq, hx, hall⟩
        cases l1 with
        | nil =>
          obtain rfl : a = x := by simpa using congrArg (List.head? ·) heq
          rfl
        | cons b l1' =>
          simp only [List.cons_append, List.cons.injEq] at heq
          exact absurd hpa (by rw [heq.1]; simp [hall b (by simp)])
    · have hpa' : p a = false := by simpa using hpa
      rw [List.find?_cons_of_neg _ (by simp [hpa'])]
      rw [ih]
      constructor
      · rintro ⟨l1, l2, rfl, hx, hall⟩
        refine ⟨a :: l1, l2, rfl, hx, ?_⟩
        intro b hb
        rcases List.mem_cons.mp hb with rfl | hb'
        · exact hpa'
        · exact hall b hb'
      · rintro ⟨l1, l2, heq, hx, hall⟩
        cases l1 with
        | nil =>
          obtain rfl : a = x := by simpa using congrArg (List.head? ·) heq
          exact absurd hx (by simp [hpa'])
        | cons b l1' =>
          simp only [List.cons_append, List.cons.injEq] at heq
          exact ⟨l1', l2, heq.2, hx, fun b' hb' => hall b' (by simp [hb'])⟩

/-- C4: resolution uses the entry itself when its declared subsystem is
`hid`; otherwise it returns exactly the nearest ancestor whose subsystem
is `hid` (there is a decomposition of the ancestor chain with no earlier
`hid` ancestor); and when neither the entry nor any ancestor is a `hid`
device, it fails with the `NotATargetDevice` error. -/
theorem c4_resolution (syspath : String) (dev : UdevDevice) :
    (dev.node.subsystem = some "hid" → from_syspath syspath dev = .ok dev.node) ∧
    (dev.node.subsystem ≠ some "hid" →
      ∀ n, from_syspath syspath dev = .ok n ↔
        ∃ l1 l2, dev.ancestors = l1 ++ n :: l2 ∧ n.subsystem = some "hid" ∧
          ∀ b ∈ l1, b.subsystem ≠ some "hid") ∧
    (dev.node.subsystem ≠ some "hid" →
      (∀ a ∈ dev.ancestors, a.subsystem ≠ some "hid") →
      from_syspath syspath dev =
        .error (.invalidData ("Device " ++ syspath ++ " is not a HID device").data)) := by
  refine ⟨fun h => ?_, fun h n => ?_, fun h hall => ?_⟩
  · have hb : subsystemIsHid dev.node = true := (subsystemIsHid_iff _).mpr h
    simp [from_syspath, hb]
  · have hb : subsystemIsHid dev.node = false := (subsystemIsHid_false_iff _).mpr h
    rcases hfind : dev.ancestors.find? subsystemIsHid with _ | parent
    · simp only [from_syspath, hb, Bool.false_eq_true, if_false, hfind,
        reduceCtorEq, false_iff]
      rw [List.find?_eq_none] at hfind
      rintro ⟨l1, l2, heq, hn, -⟩
      exact absurd ((subsystemIsHid_iff n).mpr hn)
        (hfind n (by rw [heq]; simp))
    · simp only [from_syspath, hb, Bool.false_eq_true, if_false, hfind,
        Except.ok.injEq]
      rw [find?_first] at hfind
      obtain ⟨l1, l2, heq, hp, hall⟩ := hfind
      constructor
      · rintro rfl
        exact ⟨l1, l2, heq, (subsystemIsHid_iff _).mp hp,
          fun b hb' => (subsystemIsHid_false_iff b).mp (hall b hb')⟩
      · rintro ⟨l1', l2', heq', hn, hall'⟩
        by_contra hne
        rw [heq] at heq'
        rcases List.append_eq_append_iff.mp heq' with ⟨k, hk1, hk2⟩ | ⟨k, hk1, hk2⟩
        · cases k with
          | nil =>
            simp only [List.nil_append, List.cons.injEq] at hk2
            exact hne hk2.1
          | cons y k' =>
            have hpy : parent = y := by simpa using congrArg (List.head? ·) hk2
            have hmem : parent ∈ l1' := by
              rw [hk1, hpy]
              simp
            exact absurd ((subsystemIsHid_iff _).mp hp) (hall' parent hmem)
        · cases k with
          | nil =>
            simp only [List.nil_append, List.cons.injEq] at hk2
            exact hne hk2.1.symm
          | cons y k' =>
            have hny : n = y := by simpa using congrArg (List.head? ·) hk2
            have hmem : n ∈ l1 := by
              rw [hk1, hny]
              simp
            exact absurd hn ((subsystemIsHid_false_iff n).mp (hall n hmem))
  · have hb : subsystemIsHid dev.node = false := (subsystemIsHid_false_iff _).mpr h
    have hfind : dev.ancestors.find? subsystemIsHid = none := by
      rw [List.find?_eq_none]
      intro a ha
      simpa [subsystemIsHid_iff] using hall a ha
    simp [from_syspath, hb, hfind]

/-- C4 (witness): a concrete non-hid entry with the nearest of two `hid`
ancestors returned; hypotheses discharged by computation. -/
theorem c4_resolution_witness :
    from_syspath "/sys/x"
        ⟨⟨some "hidraw", "s"⟩,
          [⟨none, "a"⟩, ⟨some "hid", "b"⟩, ⟨some "hid", "c"⟩]⟩ = .ok ⟨some "hid", "b"⟩ ↔
      ∃ l1 l2,
        [⟨none, "a"⟩, ⟨some "hid", "b"⟩, ⟨some "hid", "c"⟩] =
          l1 ++ (⟨some "hid", "b"⟩ : DevNode) :: l2 ∧
        (some "hid" : Option String) = some "hid" ∧
        ∀ b ∈ l1, b.subsystem ≠ some "hid" :=
  (c4_resolution "/sys/x"
      ⟨⟨some "hidraw", "s"⟩,
        [⟨none, "a"⟩, ⟨some "hid", "b"⟩, ⟨some "hid", "c"⟩]⟩).2.1
    (by decide) ⟨some "hid", "b"⟩

example : hexFixed 4 3 = ['0', '0', '0', '3'] := by decide
example : hexFixed 8 41119 = ['0', '0', '0', '0', 'A', '0', '9', 'F'] := by decide

example :
    matchesGlob ⟨3, 1, 1241, 41119⟩ "b0003g0001v000004D9p0000A09F.bpf.o".data = true := by
  decide
example :
    matchesGlob ⟨3, 1, 1241, 41119⟩ "b*g*v*p*-steelseries.bpf.o".data = true := by
  decide
example :
    matchesGlob ⟨3, 1, 1241, 41119⟩ "b0003g0001v000004d9p0000a09f-x.BPF.O".data = true := by
  decide
example :
    matchesGlob ⟨3, 1, 1241, 41119⟩ "b0004g0001v000004D9p0000A09F.bpf.o".data = false := by
  decide
example :
    matchesGlob ⟨3, 1, 1241, 41119⟩ "b0003g0001v000004D9p0000A09F.bpf".data = false := by
  decide

theorem load_trace_all_ok {E : Type} (loader : List Char → Except E Unit)
    (cands : List (List Char)) (h : ∀ q ∈ cands, loader q = .ok ()) :
    load_trace loader cands = (cands, .ok ()) := by
  induction cands with
  | nil => rfl
  | cons c t ih =>
    have hc : loader c = .ok () := h c (by simp)
    have ht := ih (fun q hq => h q (List.mem_cons_of_mem _ hq))
    simp [load_trace, hc, ht]

theorem load_trace_first_error {E : Type} (loader : List Char → Except E Unit)
    (p : List Char) (e : E) (hp : loader p = .error e) :
    ∀ (pre post : List (List Char)), (∀ q ∈ pre, loader q = .ok ()) →
      load_trace loader (pre ++ p :: post) = (pre ++ [p], .error e) := by
  intro pre
  induction pre with
  | nil =>
    intro post _
    simp [load_trace, hp]
  | cons a pre' ih =>
    intro post h
    have ha : loader a = .ok () := h a (by simp)
    have := ih post (fun q hq => h q (List.mem_cons_of_mem _ hq))
    simp [load_trace, ha, this]

/-- C9: when the program directory does not exist, the add flow's
directory step succeeds immediately: no candidate is ever handed to the
loader and the outcome is `Ok(())` — absence of the directory is never
an error. -/
theorem c9_missing_directory {E : Type} (loader : List Char → Except E Unit)
    (entries : List DirEntry) (m : Modalias) :
    load_bpf_from_directory loader false entries m = ([], .ok ()) := rfl

/-- C6: in the add flow the loader is invoked once per matched candidate
in order; if every load succeeds the whole ordered list is loaded and
the flow succeeds, while a failing candidate aborts the invocation with
the loader's failure and no later candidate is attempted. -/
theorem c6_load_fatal {E : Type} (loader : List Char → Except E Unit)
    (entries : List DirEntry) (m : Modalias)
    (cands pre post : List (List Char)) (p : List Char) (e : E) :
    (load_bpf_from_directory loader true entries m =
      load_trace loader ((selectMatches m entries).map DirEntry.name)) ∧
    ((∀ q ∈ cands, loader q = .ok ()) →
      load_trace loader cands = (cands, .ok ())) ∧
    (cands = pre ++ p :: post → (∀ q ∈ pre, loader q = .ok ()) →
      loader p = .error e →
      load_trace loader cands = (pre ++ [p], .error e)) :=
  ⟨rfl,
   fun h => load_trace_all_ok loader cands h,
   fun hc hpre hp => hc ▸ load_trace_first_error loader p e hp pre post hpre⟩

/-- C6 (witness): a concrete three-candidate list whose second load
fails: only the first two candidates are attempted and the loader's
error is the flow's outcome. -/
theorem c6_load_fatal_witness :
    load_trace (fun q => if q = ['y'] then Except.error 7 else Except.ok ())
      [['x'], ['y'], ['z']] = ([['x'], ['y']], Except.error 7) :=
  (c6_load_fatal (fun q => if q = ['y'] then Except.error 7 else Except.ok ())
      [] ⟨0, 0, 0, 0⟩ [['x'], ['y'], ['z']] [['x']] [['z']] ['y'] 7).2.2
    rfl (by decide) (by decide)

theorem upChar_eq_slash_iff (c : Char) : upChar c = '/' ↔ c = '/' := by
  unfold upChar
  by_cases h : 97 ≤ c.toNat ∧ c.toNat ≤ 122
  · rw [if_pos h]
    constructor
    · intro hc
      exfalso
      obtain ⟨h1, h2⟩ := h
      have h65 : 65 ≤ c.toNat - 32 := by omega
      have h90 : c.toNat - 32 ≤ 90 := by omega
      revert hc
      obtain ⟨k, hk⟩ : ∃ k, c.toNat - 32 = k := ⟨_, rfl⟩
      rw [hk] at h65 h90 ⊢
      interval_cases k <;> decide
    · rintro rfl
      exact absurd h (by decide)
  · rw [if_neg h]

theorem mem_map_slash (l : List Char) : '/' ∈ l.map upChar ↔ '/' ∈ l := by
  simp only [List.mem_map]
  constructor
  · rintro ⟨c, hc, hup⟩
    exact ((upChar_eq_slash_iff c).mp hup) ▸ hc
  · intro h
    exact ⟨'/', h, by decide⟩

theorem upChar_hexDigitUpper (k : Nat) (h : k < 16) :
    upChar (hexDigitUpper k) = hexDigitUpper k := by
  interval_cases k <;> decide

theorem map_upChar_hexFixed (w n : Nat) :
    (hexFixed w n).map upChar = hexFixed w n := by
  unfold hexFixed
  rw [List.map_map]
  apply List.map_congr_left
  intro i _
  exact upChar_hexDigitUpper _ (Nat.mod_lt _ (by omega))

theorem stripCI_eq_some (pat : List Char) :
    ∀ s r : List Char, stripCI pat s = some r ↔
      ∃ pre, s = pre ++ r ∧ pre.map upChar = pat.map upChar := by
  induction pat with
  | nil =>
    intro s r
    simp only [stripCI, Option.some.injEq, List.map_nil]
    constructor
    · rintro rfl
      exact ⟨[], by simp⟩
    · rintro ⟨pre, rfl, hm⟩
      obtain rfl : pre = [] := List.map_eq_nil_iff.mp hm
      simp
  | cons p ps ih =>
    intro s r
    cases s with
    | nil =>
      simp only [stripCI, reduceCtorEq, false_iff]
      rintro ⟨pre, hpre, hm⟩
      cases pre with
      | nil => simp at hm
      | cons a t => simp at hpre
    | cons c cs =>
      simp only [stripCI]
      by_cases hup : upChar c = upChar p
      · simp only [hup, if_true, ih]
        constructor
        · rintro ⟨pre', rfl, hm⟩
          exact ⟨c :: pre', rfl, by simp [hup, hm]⟩
        · rintro ⟨pre, hpre, hm⟩
          cases pre with
          | nil => simp at hm
          | cons a t =>
            simp only [List.cons_append, List.cons.injEq] at hpre
            obtain ⟨rfl, rfl⟩ := hpre
            simp only [List.map_cons, List.cons.injEq] at hm
            exact ⟨t, rfl, hm.2⟩
      · simp only [hup, if_false, reduceCtorEq, false_iff]
        rintro ⟨pre, hpre, hm⟩
        cases pre with
        | nil => simp at hm
        | cons a t =>
          simp only [List.cons_append, List.cons.injEq] at hpre
          simp only [List.map_cons, List.cons.injEq] at hm
          exact hup (hpre.1 ▸ hm.1)

theorem endsCI_iff (rest : List Char) :
    endsCI rest = true ↔
      ∃ mid suf, rest = mid ++ suf ∧
        suf.map upChar = ['.', 'B', 'P', 'F', '.', 'O'] ∧ '/' ∉ mid := by
  unfold endsCI
  simp only [Bool.and_eq_true, decide_eq_true_eq]
  constructor
  · rintro ⟨⟨h6, hsuf⟩, hmid⟩
    exact ⟨rest.take (rest.length - 6), rest.drop (rest.length - 6),
      (List.take_append_drop _ _).symm, hsuf, hmid⟩
  · rintro ⟨mid, suf, rfl, hsuf, hmid⟩
    have hslen : suf.length = 6 := by
      have := congrArg List.length hsuf
      simpa using this
    have hlen : (mid ++ suf).length = mid.length + 6 := by simp [hslen]
    have hidx : (mid ++ suf).length - 6 = mid.length := by omega
    refine ⟨⟨by omega, ?_⟩, ?_⟩
    · rw [hidx, List.drop_left]
      exact hsuf
    · rw [hidx, List.take_left]
      exact hmid

theorem match_strip_eq_true (pat name : List Char) :
    (match stripCI pat name with
      | some rest => endsCI rest
      | none => false) = true ↔
    ∃ rest, stripCI pat name = some rest ∧ endsCI rest = true := by
  rcases h : stripCI pat name with _ | rest <;> simp [h]

theorem map_eq_append_split {l A B : List Char}
    (h : l.map upChar = A ++ B) :
    ∃ l1 l2, l = l1 ++ l2 ∧ l1.map upChar = A ∧ l2.map upChar = B := by
  refine ⟨l.take A.length, l.drop A.length, (List.take_append_drop _ _).symm, ?_, ?_⟩
  · rw [List.map_take, h, List.take_left]
  · rw [List.map_drop, h, List.drop_left]

theorem matchesGlob_eq_true_iff (m : Modalias) (name : List Char) :
    matchesGlob m name = true ↔
    ∃ f1 ∈ fieldPats (hexFixed 4 m.bus), ∃ f2 ∈ fieldPats (hexFixed 4 m.group),
    ∃ f3 ∈ fieldPats (hexFixed 8 m.vid), ∃ f4 ∈ fieldPats (hexFixed 8 m.pid),
    ∃ rest, stripCI ('b' :: f1 ++ 'g' :: f2 ++ 'v' :: f3 ++ 'p' :: f4) name = some rest ∧
      endsCI rest = true := by
  simp only [matchesGlob, List.any_eq_true, match_strip_eq_true]

theorem map_upChar_field {f exact : List Char}
    (hmap : exact.map upChar = exact) (h : f ∈ fieldPats exact) :
    f.map upChar = ['*'] ∨ f.map upChar = exact := by
  rcases List.mem_pair.mp h with rfl | rfl
  · exact Or.inr hmap
  · exact Or.inl (by decide)

theorem field_mem_pats {F exact : List Char}
    (h : F = ['*'] ∨ F = exact) : F ∈ fieldPats exact := by
  rcases h with rfl | rfl <;> simp [fieldPats]

theorem matchesGlob_iff_spec (m : Modalias) (name : List Char)
    (hns : '/' ∉ name) :
    matchesGlob m name = true ↔ specFileMatches m name := by
  have hb : upChar 'b' = 'B' := by decide
  have hg : upChar 'g' = 'G' := by decide
  have hv : upChar 'v' = 'V' := by decide
  have hp : upChar 'p' = 'P' := by decide
  have hstar : (['*'] : List Char).map upChar = ['*'] := by decide
  rw [matchesGlob_eq_true_iff]
  constructor
  · rintro ⟨f1, hf1, f2, hf2, f3, hf3, f4, hf4, rest, hstrip, hend⟩
    obtain ⟨pre, rfl, hpre⟩ := (stripCI_eq_some _ _ _).mp hstrip
    obtain ⟨mid, suf, rfl, hsuf, hmid⟩ := (endsCI_iff rest).mp hend
    refine ⟨f1.map upChar, f2.map upChar, f3.map upChar, f4.map upChar,
      mid.map upChar, suf.map upChar, ?_, ?_, ?_, ?_, ?_, hsuf⟩
    · rw [List.map_append, List.map_append, hpre]
      simp [List.map_append, hb, hg, hv, hp, List.append_assoc]
    · exact map_upChar_field (map_upChar_hexFixed 4 m.bus) hf1
    · exact map_upChar_field (map_upChar_hexFixed 4 m.group) hf2
    · exact map_upChar_field (map_upChar_hexFixed 8 m.vid) hf3
    · exact map_upChar_field (map_upChar_hexFixed 8 m.pid) hf4
  · rintro ⟨F1, F2, F3, F4, MID, SUF, heq, h1, h2, h3, h4, rfl⟩
    have hF1 : F1.map upChar = F1 := by
      rcases h1 with rfl | rfl
      · exact hstar
      · exact map_upChar_hexFixed 4 m.bus
    have hF2 : F2.map upChar = F2 := by
      rcases h2 with rfl | rfl
      · exact hstar
      · exact map_upChar_hexFixed 4 m.group
    have hF3 : F3.map upChar = F3 := by
      rcases h3 with rfl | rfl
      · exact hstar
      · exact map_upChar_hexFixed 8 m.vid
    have hF4 : F4.map upChar = F4 := by
      rcases h4 with rfl | rfl
      · exact hstar
      · exact map_upChar_hexFixed 8 m.pid
    have hpatmap :
        ('b' :: F1 ++ 'g' :: F2 ++ 'v' :: F3 ++ 'p' :: F4).map upChar =
          'B' :: F1 ++ 'G' :: F2 ++ 'V' :: F3 ++ 'P' :: F4 := by
      simp [List.map_append, hb, hg, hv, hp, hF1, hF2, hF3, hF4]
    have heq' : name.map upChar =
        ('B' :: F1 ++ 'G' :: F2 ++ 'V' :: F3 ++ 'P' :: F4) ++
          (MID ++ ['.', 'B', 'P', 'F', '.', 'O']) := by
      rw [heq]
      simp [List.append_assoc]
    obtain ⟨n1, n2, rfl, hn1, hn2⟩ := map_eq_append_split heq'
    obtain ⟨m2, s2, rfl, hm2, hs2⟩ := map_eq_append_split hn2
    refine ⟨F1, field_mem_pats h1, F2, field_mem_pats h2,
      F3, field_mem_pats h3, F4, field_mem_pats h4, m2 ++ s2, ?_, ?_⟩
    · exact (stripCI_eq_some _ _ _).mpr ⟨n1, rfl, by rw [hn1, hpatmap]⟩
    · refine (endsCI_iff _).mpr ⟨m2, s2, rfl, hs2, ?_⟩
      intro hmem
      exact hns (by simp [hmem])

/-- C1: for a device identity within the fixed field widths and a
directory of entries (filenames never contain the path separator), the
matcher selects exactly the entries that are regular files and whose
name satisfies, case-insensitively, the per-field alternation — each of
the four fields equals the device's exact fixed-width hexadecimal value
or the literal wildcard `*` — followed by the program-file suffix
`.bpf.o`; an entry failing any field's alternation, the suffix, or the
regular-file requirement is excluded. -/
theorem c1_matcher_exact (m : Modalias) (entries : List DirEntry)
    (hbound : m.bus < 16 ^ 4 ∧ m.group < 16 ^ 4 ∧ m.vid < 16 ^ 8 ∧ m.pid < 16 ^ 8)
    (hns : ∀ e ∈ entries, '/' ∉ e.name) (e : DirEntry) :
    e ∈ selectMatches m entries ↔
      e ∈ entries ∧ e.isFile = true ∧ specFileMatches m e.name := by
  unfold selectMatches
  rw [List.mem_filter]
  constructor
  · rintro ⟨he, hf⟩
    simp only [Bool.and_eq_true] at hf
    exact ⟨he, hf.2, (matchesGlob_iff_spec m e.name (hns e he)).mp hf.1⟩
  · rintro ⟨he, hf, hspec⟩
    refine ⟨he, ?_⟩
    simp only [Bool.and_eq_true]
    exact ⟨(matchesGlob_iff_spec m e.name (hns e he)).mpr hspec, hf⟩

/-- C1 (witness): the characterisation applied to a concrete identity
and directory, discharging the width-bound and no-separator hypotheses
by computation. -/
theorem c1_matcher_exact_witness :
    (⟨"b0003g*v*p0000A09F-x.bpf.o".data, true⟩ : DirEntry) ∈
        selectMatches ⟨3, 1, 1241, 41119⟩
          [⟨"b0003g*v*p0000A09F-x.bpf.o".data, true⟩,
           ⟨"b0003g0001v000004D9p0000A09F.bpf.o".data, false⟩] ↔
      (⟨"b0003g*v*p0000A09F-x.bpf.o".data, true⟩ : DirEntry) ∈
          [⟨"b0003g*v*p0000A09F-x.bpf.o".data, true⟩,
           ⟨"b0003g0001v000004D9p0000A09F.bpf.o".data, false⟩] ∧
        true = true ∧
        specFileMatches ⟨3, 1, 1241, 41119⟩ "b0003g*v*p0000A09F-x.bpf.o".data :=
  c1_matcher_exact ⟨3, 1, 1241, 41119⟩
    [⟨"b0003g*v*p0000A09F-x.bpf.o".data, true⟩,
     ⟨"b0003g0001v000004D9p0000A09F.bpf.o".data, false⟩]
    (by decide) (by decide) ⟨"b0003g*v*p0000A09F-x.bpf.o".data, true⟩

end UdevHidBpf
